import Mathlib

/-
Verification of the core of `mitt-oljefond` (file `web/app/page.tsx`):
the time-aligned currency conversion and change-computation logic.

Modelling conventions used throughout:
  * Timestamps are integers (milliseconds since the epoch); the TS code
    stores ISO strings and immediately parses them with
    `new Date(s).getTime()`, so the embedding works directly with the
    parsed value. Sorting rows by `localeCompare` on ISO strings agrees
    with numeric order on the parsed instants for ISO 8601 strings; the
    embedding therefore sorts numerically.
  * JSON-parsed numbers (`fund_nok`, `pop`, `per_capita_nok`, `usdnok`,
    the fallback rate) are rationals: `JSON.parse` can only produce
    finite IEEE doubles, each of which is a rational. Division is
    rational division (total, with junk value 0 at a zero divisor; the
    places where the code can divide by zero are called out explicitly).
  * A separate raw model (`RawFxRow`, `JsNum`) keeps the full JS value
    semantics (missing fields, NaN, signed infinities) for the input
    filter of `buildFxIndex`, where the distinction matters.
  * The JS `while` loop of the binary search is embedded as structural
    recursion on a fuel bound equal to the initial interval length,
    which provably suffices, so the definition evaluates by `decide`.
-/

namespace Oljefond

/-- Row of the per-capita series (TS type `Row` in `page.tsx`): `ts` is the
parsed timestamp in milliseconds, the numeric fields are rationals. -/
structure Row where
  ts : ℤ
  fund_nok : ℚ
  pop : ℚ
  per_capita_nok : ℚ
deriving DecidableEq

/-- Exchange-rate row (TS type `FxRow`): `date` is the parsed calendar date
as an instant (ms), `none` models a missing or empty (falsy) date string.
The rate is a rational (JSON input, hence a finite number). -/
structure FxRow where
  date : Option ℤ
  usdnok : ℚ
deriving DecidableEq

/-- Display currency (TS type `Currency`). -/
inductive Currency where
  | NOK
  | USD
deriving DecidableEq

/-- Fx index (TS type `FxIndex`): parallel arrays of dates and rates plus
the optional last entry. The TS fields `lastDateMs`/`lastRate` may be
absent, hence `Option`. -/
structure FxIndex where
  datesMs : List ℤ
  rates : List ℚ
  lastDateMs : Option ℤ
  lastRate : Option ℚ
deriving DecidableEq

/-- Filter predicate of `buildFxIndex`:
`typeof r.usdnok === "number" && r.usdnok > 0 && r.date`. In this finite
model `usdnok` is always a number, so the `typeof` conjunct is satisfied;
`r.date` truthiness is `isSome` (the raw model below keeps the full JS
semantics of this filter). -/
def fxKeep (r : FxRow) : Bool :=
  decide (0 < r.usdnok) && r.date.isSome

/-- Sort order of `buildFxIndex`: ascending by date
(`a.date.localeCompare(b.date)` on ISO strings = numeric order on the
parsed instants). -/
def fxLe (a b : FxRow) : Prop :=
  a.date.getD 0 ≤ b.date.getD 0

instance : DecidableRel fxLe := fun a b => inferInstanceAs (Decidable (a.date.getD 0 ≤ b.date.getD 0))

instance : IsTotal FxRow fxLe := ⟨fun a b => le_total (a.date.getD 0) (b.date.getD 0)⟩

instance : IsTrans FxRow fxLe := ⟨fun _ _ _ h1 h2 => le_trans h1 h2⟩

/-- Cleaned exchange-rate rows, as computed by the first statement of
`buildFxIndex`: filter, then sort ascending by date (the ES2019 `sort` is
stable; `insertionSort` is a stable sort as well). -/
def fxClean (fxRows : List FxRow) : List FxRow :=
  List.insertionSort fxLe (fxRows.filter fxKeep)

/-- Embedding of `buildFxIndex(fxRows, envFallback)` (`page.tsx` lines
118-131): filter, sort ascending by date, build parallel arrays; on an
empty filtered list return `{ datesMs: [], rates: [], lastRate: envFallback }`
(note: `lastDateMs` absent, `lastRate` present and equal to the fallback). -/
def buildFxIndex (fxRows : List FxRow) (envFallback : ℚ) : FxIndex :=
  let clean := fxClean fxRows
  if clean.length = 0 then
    { datesMs := [], rates := [], lastDateMs := none, lastRate := some envFallback }
  else
    let datesMs := clean.map (fun r => r.date.getD 0)
    let rates := clean.map (fun r => r.usdnok)
    { datesMs := datesMs, rates := rates,
      lastDateMs := datesMs.getLast?, lastRate := rates.getLast? }

/-- Body of the `while (lo <= hi)` loop of `findFxIdxAtOrBefore`
(`page.tsx` lines 138-144), as structural recursion on a fuel bound on
the number of iterations. `(lo + hi) >> 1` is floor division by 2; on the
reachable states `0 ≤ lo` and the loop is entered only when `lo ≤ hi`, so
`lo + hi ≥ 0` and integer division agrees with the JS shift. The interval
length `hi + 1 - lo` shrinks strictly each iteration, so any fuel of at
least the initial interval length yields the loop's exit value. -/
def fxSearchAux : ℕ → List ℤ → ℤ → ℤ → ℤ → ℤ → ℤ
  | 0, _, _, _, _, ans => ans
  | fuel + 1, l, t, lo, hi, ans =>
    if lo ≤ hi then
      let mid := (lo + hi) / 2
      if l.getD mid.toNat 0 ≤ t then fxSearchAux fuel l t (mid + 1) hi mid
      else fxSearchAux fuel l t lo (mid - 1) ans
    else ans

/-- Embedding of `findFxIdxAtOrBefore(tsMs, idx)` (`page.tsx` lines
132-146): `-1` on an empty date array, else binary search with
`lo = 0`, `hi = length - 1`, `ans = -1`. The fuel `length` equals the
initial interval length. -/
def findFxIdxAtOrBefore (tsMs : ℤ) (idx : FxIndex) : ℤ :=
  if idx.datesMs.length = 0 then -1
  else fxSearchAux idx.datesMs.length idx.datesMs tsMs 0 ((idx.datesMs.length : ℤ) - 1) (-1)

/-- Embedding of `getUsdNokAt(tsMs, idx, envFallback)` (`page.tsx` lines
147-151): the rate at the found position, else the fallback. -/
def getUsdNokAt (tsMs : ℤ) (idx : FxIndex) (envFallback : ℚ) : ℚ :=
  let i := findFxIdxAtOrBefore tsMs idx
  if 0 ≤ i then idx.rates.getD i.toNat 0 else envFallback

/-- Embedding of `toCurrencyAt(nok, cur, tsMs, idx, envFallback)`
(`page.tsx` lines 152-156): identity for NOK, else divide by the
historical rate at `tsMs`. -/
def toCurrencyAt (nok : ℚ) (cur : Currency) (tsMs : ℤ) (idx : FxIndex) (envFallback : ℚ) : ℚ :=
  match cur with
  | .NOK => nok
  | .USD => nok / getUsdNokAt tsMs idx envFallback

/-- Backward scan of `getRefRow` (`page.tsx` lines 105-111), written as a
forward scan over the reversed list: the first element (from the end of
the original series) whose timestamp is at or before `targetTs` decides
the result — returned when within tolerance, otherwise `none` at once. -/
def scanBack (l : List Row) (targetTs toleranceMs : ℤ) : Option Row :=
  match l with
  | [] => none
  | r :: rest =>
    if r.ts ≤ targetTs then
      if targetTs - r.ts ≤ toleranceMs then some r else none
    else scanBack rest targetTs toleranceMs

/-- Embedding of `getRefRow(rows, targetMsAgo, toleranceMs)` (`page.tsx`
lines 102-113). On an empty list the JS loop body never runs and the
function returns `null` (the out-of-bounds read of
`rows[rows.length - 1]` yields `undefined`, whose parsed time `NaN`
satisfies no comparison), modelled by the `none` branch of `getLast?`. -/
def getRefRow (rows : List Row) (targetMsAgo toleranceMs : ℤ) : Option Row :=
  match rows.getLast? with
  | none => none
  | some latest => scanBack rows.reverse (latest.ts - targetMsAgo) toleranceMs

/-- Change result (the object literal returned by `computeChangeCurrency`):
`since` is the reference row's timestamp. -/
structure ChangeResult where
  dNok : ℚ
  dPct : ℚ
  since : ℤ
deriving DecidableEq

/-- Embedding of `computeChangeCurrency(rows, latest, windowMs,
toleranceMs, cur, fxIdx, envFallback)` (`page.tsx` lines 168-190). Note
there is no guard on a zero converted reference value: `dPct` is computed
by an unconditional division (rational division here, `Infinity`/`NaN`
in JS when the divisor is 0). -/
def computeChangeCurrency (rows : List Row) (latest : Option Row)
    (windowMs toleranceMs : ℤ) (cur : Currency) (fxIdx : FxIndex)
    (envFallback : ℚ) : Option ChangeResult :=
  match latest with
  | none => none
  | some l =>
    if rows.length < 2 then none
    else
      match getRefRow rows windowMs toleranceMs with
      | none => none
      | some ref =>
        let latestPer := toCurrencyAt l.per_capita_nok cur l.ts fxIdx envFallback
        let refPer := toCurrencyAt ref.per_capita_nok cur ref.ts fxIdx envFallback
        let d := latestPer - refPer
        some { dNok := d, dPct := d / refPer * 100, since := ref.ts }

/-
Raw model of the `buildFxIndex` input filter, keeping the JS value
semantics that the finite model above abstracts away: a field may be
absent or not a number, and a numeric field may be NaN or an infinity.
-/

/-- JS number value: a finite value (a rational), an infinity, or NaN. -/
inductive JsNum where
  | fin (q : ℚ)
  | posInf
  | negInf
  | nan
deriving DecidableEq

/-- Truth value of `v > 0` in JS: false for NaN (all NaN comparisons are
false), true for `+Infinity`, and the rational comparison otherwise. -/
def jsNumPos : JsNum → Bool
  | .fin q => decide (0 < q)
  | .posInf => true
  | .negInf => false
  | .nan => false

/-- Whether a JS number is finite (`Number.isFinite`). -/
def jsNumFinite : JsNum → Bool
  | .fin _ => true
  | _ => false

/-- Raw exchange-rate row: `usdnok = none` models a field that is absent
or not a number (so that `typeof r.usdnok === "number"` is false);
`date = none` models a missing or empty (falsy) date. -/
structure RawFxRow where
  date : Option ℤ
  usdnok : Option JsNum
deriving DecidableEq

/-- Raw embedding of the filter predicate of `buildFxIndex`:
`typeof r.usdnok === "number" && r.usdnok > 0 && r.date`. -/
def rawFxKeep (r : RawFxRow) : Bool :=
  (match r.usdnok with
   | some v => jsNumPos v
   | none => false) && r.date.isSome

/-- Sort order on raw rows, ascending by date. -/
def rawFxLe (a b : RawFxRow) : Prop :=
  a.date.getD 0 ≤ b.date.getD 0

instance : DecidableRel rawFxLe := fun a b => inferInstanceAs (Decidable (a.date.getD 0 ≤ b.date.getD 0))

instance : IsTotal RawFxRow rawFxLe := ⟨fun a b => le_total (a.date.getD 0) (b.date.getD 0)⟩

instance : IsTrans RawFxRow rawFxLe := ⟨fun _ _ _ h1 h2 => le_trans h1 h2⟩

/-- Fx index over raw JS rates. -/
structure FxIndexRaw where
  datesMs : List ℤ
  rates : List JsNum
  lastDateMs : Option ℤ
  lastRate : Option JsNum
deriving DecidableEq

/-- Raw embedding of `buildFxIndex` (`page.tsx` lines 118-131), identical
to the finite one but over raw rows, for claims about the input filter. -/
def buildFxIndexRaw (fxRows : List RawFxRow) (envFallback : JsNum) : FxIndexRaw :=
  let clean := List.insertionSort rawFxLe (fxRows.filter rawFxKeep)
  if clean.length = 0 then
    { datesMs := [], rates := [], lastDateMs := none, lastRate := some envFallback }
  else
    let datesMs := clean.map (fun r => r.date.getD 0)
    let rates := clean.map (fun r => r.usdnok.getD .nan)
    { datesMs := datesMs, rates := rates,
      lastDateMs := datesMs.getLast?, lastRate := rates.getLast? }

/-
Helper layer: characterization of the binary search through the number of
dates at or before the queried instant, and structural facts about
`buildFxIndex` and `getRefRow`.
-/

/-- Number of entries of `l` that are at or before the instant `t`. For a
sorted `l` these entries form a prefix, so `leCount l t - 1` is the index
of the greatest date at or before `t`. -/
def leCount (l : List ℤ) (t : ℤ) : ℕ :=
  l.countP (fun x => decide (x ≤ t))

lemma leCount_le_length (l : List ℤ) (t : ℤ) : leCount l t ≤ l.length :=
  List.countP_le_length _

lemma leCount_cons (x : ℤ) (l : List ℤ) (t : ℤ) :
    leCount (x :: l) t = leCount l t + if x ≤ t then 1 else 0 := by
  simp [leCount, List.countP_cons]

lemma leCount_eq_zero_of_head_gt {x : ℤ} {l : List ℤ}
    (hs : List.Sorted (· ≤ ·) (x :: l)) {t : ℤ} (hx : ¬ x ≤ t) :
    leCount (x :: l) t = 0 := by
  rw [leCount, List.countP_eq_zero]
  intro a ha
  rcases List.mem_cons.mp ha with rfl | ha'
  · simpa using hx
  · have hxa : x ≤ a := (List.sorted_cons.mp hs).1 a ha'
    simp only [decide_eq_true_eq]
    omega

lemma leCount_mono (l : List ℤ) {t1 t2 : ℤ} (h : t1 ≤ t2) :
    leCount l t1 ≤ leCount l t2 := by
  apply List.countP_mono_left
  intro a _ ha
  simp only [decide_eq_true_eq] at ha ⊢
  omega

/-- Prefix characterization: in a sorted list, the entry at index `j` is at
or before `t` exactly when `j` lies below the count of such entries. -/
lemma sorted_getD_le_iff {l : List ℤ} (hs : List.Sorted (· ≤ ·) l) (t : ℤ) :
    ∀ j : ℕ, j < l.length → (l.getD j 0 ≤ t ↔ j < leCount l t) := by
  induction l with
  | nil => intro j hj; simp at hj
  | cons x xs ih =>
    have hx : ∀ b ∈ xs, x ≤ b := (List.sorted_cons.mp hs).1
    have hxs : List.Sorted (· ≤ ·) xs := (List.sorted_cons.mp hs).2
    intro j hj
    cases j with
    | zero =>
      rw [List.getD_cons_zero]
      constructor
      · intro h
        rw [leCount_cons, if_pos h]
        omega
      · intro h
        by_contra hc
        rw [leCount_eq_zero_of_head_gt hs hc] at h
        omega
    | succ n =>
      rw [List.getD_cons_succ]
      have hn : n < xs.length := by simpa using hj
      by_cases hxt : x ≤ t
      · rw [leCount_cons, if_pos hxt]
        rw [ih hxs n hn]
        omega
      · constructor
        · intro h
          have hmem : xs.getD n 0 ∈ xs := by
            rw [List.getD_eq_getElem xs 0 hn]
            exact List.getElem_mem hn
          have := hx _ hmem
          omega
        · intro h
          rw [leCount_eq_zero_of_head_gt hs hxt] at h
          omega

/-- Loop invariant of the binary search: starting from a state in which the
answer index `leCount l t - 1` still lies in `[lo - 1, hi]`, `ans` holds
`lo - 1`, and the fuel covers the interval, the loop returns it. -/
lemma fxSearchAux_eq {l : List ℤ} (hs : List.Sorted (· ≤ ·) l) (t : ℤ) :
    ∀ (fuel : ℕ) (lo hi ans : ℤ), 0 ≤ lo → hi ≤ (l.length : ℤ) - 1 →
      hi + 1 - lo ≤ fuel → lo ≤ (leCount l t : ℤ) → (leCount l t : ℤ) - 1 ≤ hi →
      ans = lo - 1 →
      fxSearchAux fuel l t lo hi ans = (leCount l t : ℤ) - 1 := by
  intro fuel
  induction fuel with
  | zero =>
    intro lo hi ans h0 hlen hfuel hlo hhi hans
    simp only [fxSearchAux]
    omega
  | succ fuel ih =>
    intro lo hi ans h0 hlen hfuel hlo hhi hans
    simp only [fxSearchAux]
    by_cases hcond : lo ≤ hi
    · rw [if_pos hcond]
      have hmlo : lo ≤ (lo + hi) / 2 := by omega
      have hmhi : (lo + hi) / 2 ≤ hi := by omega
      have hmidlen : ((lo + hi) / 2).toNat < l.length := by omega
      by_cases hle : l.getD ((lo + hi) / 2).toNat 0 ≤ t
      · rw [if_pos hle]
        have hcnt := (sorted_getD_le_iff hs t _ hmidlen).mp hle
        exact ih _ hi _ (by omega) hlen (by omega) (by omega) hhi (by omega)
      · rw [if_neg hle]
        have hcnt : ¬ ((lo + hi) / 2).toNat < leCount l t :=
          fun hc => hle ((sorted_getD_le_iff hs t _ hmidlen).mpr hc)
        exact ih lo _ _ h0 (by omega) (by omega) hlo (by omega) hans
    · rw [if_neg hcond]
      omega

/-- Value of `findFxIdxAtOrBefore` on a sorted index: the index of the
greatest date at or before `t`, i.e. `leCount - 1` (so `-1` exactly when
no date qualifies). -/
lemma findFxIdxAtOrBefore_eq {idx : FxIndex}
    (hs : List.Sorted (· ≤ ·) idx.datesMs) (t : ℤ) :
    findFxIdxAtOrBefore t idx = (leCount idx.datesMs t : ℤ) - 1 := by
  unfold findFxIdxAtOrBefore
  have hcle := leCount_le_length idx.datesMs t
  by_cases h : idx.datesMs.length = 0
  · rw [if_pos h]
    omega
  · rw [if_neg h]
    exact fxSearchAux_eq hs t _ 0 _ (-1) (by omega) (by omega) (by omega)
      (by omega) (by omega) (by omega)

/-- Value of `getUsdNokAt` on a sorted index: the rate paired with the
greatest date at or before `t` when one exists, the fallback otherwise. -/
lemma getUsdNokAt_eq {idx : FxIndex}
    (hs : List.Sorted (· ≤ ·) idx.datesMs) (t : ℤ) (fb : ℚ) :
    getUsdNokAt t idx fb =
      if 0 < leCount idx.datesMs t then idx.rates.getD (leCount idx.datesMs t - 1) 0
      else fb := by
  unfold getUsdNokAt
  rw [findFxIdxAtOrBefore_eq hs]
  by_cases h : 0 < leCount idx.datesMs t
  · rw [if_pos (by omega : (0:ℤ) ≤ (leCount idx.datesMs t : ℤ) - 1), if_pos h]
    congr 1
    omega
  · rw [if_neg (by omega : ¬ (0:ℤ) ≤ (leCount idx.datesMs t : ℤ) - 1), if_neg h]

lemma fxClean_sorted (fxRows : List FxRow) : List.Sorted fxLe (fxClean fxRows) :=
  List.sorted_insertionSort fxLe _

lemma fxClean_mem {r : FxRow} {fxRows : List FxRow} :
    r ∈ fxClean fxRows ↔ r ∈ fxRows ∧ fxKeep r = true := by
  unfold fxClean
  rw [(List.perm_insertionSort fxLe _).mem_iff, List.mem_filter]

/-- Unfolding of `buildFxIndex` into the cleaned list: the two parallel
arrays are always the maps over the cleaned list (both empty when it is
empty), `lastDateMs` is always the last date, and `lastRate` is the last
rate except that on an empty cleaned list it is the fallback. -/
lemma buildFxIndex_eq (fxRows : List FxRow) (fb : ℚ) :
    buildFxIndex fxRows fb =
      { datesMs := (fxClean fxRows).map (fun r => r.date.getD 0),
        rates := (fxClean fxRows).map (fun r => r.usdnok),
        lastDateMs := ((fxClean fxRows).map (fun r => r.date.getD 0)).getLast?,
        lastRate := if fxClean fxRows = [] then some fb
                    else ((fxClean fxRows).map (fun r => r.usdnok)).getLast? } := by
  unfold buildFxIndex
  by_cases h : fxClean fxRows = []
  · rw [h]
    simp
  · have hlen : ¬ (fxClean fxRows).length = 0 := by
      simpa [List.length_eq_zero] using h
    simp only [if_neg hlen, if_neg h]

lemma buildFxIndex_length (fxRows : List FxRow) (fb : ℚ) :
    (buildFxIndex fxRows fb).rates.length = (buildFxIndex fxRows fb).datesMs.length := by
  rw [buildFxIndex_eq]
  simp

lemma buildFxIndex_sorted (fxRows : List FxRow) (fb : ℚ) :
    List.Sorted (· ≤ ·) (buildFxIndex fxRows fb).datesMs := by
  rw [buildFxIndex_eq]
  exact List.Pairwise.map _ (fun _ _ hab => hab) (fxClean_sorted fxRows)

lemma buildFxIndex_rates_pos (fxRows : List FxRow) (fb : ℚ) :
    ∀ x ∈ (buildFxIndex fxRows fb).rates, 0 < x := by
  rw [buildFxIndex_eq]
  intro x hx
  simp only [List.mem_map] at hx
  obtain ⟨r, hr, rfl⟩ := hx
  have hk := (fxClean_mem.mp hr).2
  unfold fxKeep at hk
  simp only [Bool.and_eq_true, decide_eq_true_eq] at hk
  exact hk.1

/-- Value of the backward scan: the first element of `l` whose timestamp is
at or before the target decides the result. -/
lemma scanBack_eq_find (l : List Row) (target tol : ℤ) :
    scanBack l target tol =
      match l.find? (fun r => decide (r.ts ≤ target)) with
      | none => none
      | some c => if target - c.ts ≤ tol then some c else none := by
  induction l with
  | nil => rfl
  | cons r rest ih =>
    by_cases h : r.ts ≤ target
    · rw [List.find?_cons_of_pos _ (by simpa using h)]
      simp [scanBack, h]
    · rw [List.find?_cons_of_neg _ (by simpa using h)]
      simp only [scanBack, if_neg h]
      exact ih

lemma getRefRow_eq (rows : List Row) (lb tol : ℤ) :
    getRefRow rows lb tol =
      match rows.getLast? with
      | none => none
      | some latest =>
        match rows.reverse.find? (fun r => decide (r.ts ≤ latest.ts - lb)) with
        | none => none
        | some c => if (latest.ts - lb) - c.ts ≤ tol then some c else none := by
  unfold getRefRow
  cases rows.getLast? with
  | none => rfl
  | some latest => exact scanBack_eq_find _ _ _

/-- Binder-free equation for `getRefRow` when the backward scan fails. -/
lemma getRefRow_of_find_none {rows : List Row} {latest : Row} {lb : ℤ}
    (hlast : rows.getLast? = some latest)
    (hfind : rows.reverse.find? (fun r => decide (r.ts ≤ latest.ts - lb)) = none)
    (tol : ℤ) :
    getRefRow rows lb tol = none := by
  unfold getRefRow
  rw [hlast]
  show scanBack rows.reverse (latest.ts - lb) tol = none
  rw [scanBack_eq_find, hfind]

/-- Binder-free equation for `getRefRow` when the backward scan finds a
candidate: the candidate is returned exactly when within tolerance. -/
lemma getRefRow_of_find_some {rows : List Row} {latest c0 : Row} {lb : ℤ}
    (hlast : rows.getLast? = some latest)
    (hfind : rows.reverse.find? (fun r => decide (r.ts ≤ latest.ts - lb)) = some c0)
    (tol : ℤ) :
    getRefRow rows lb tol = if (latest.ts - lb) - c0.ts ≤ tol then some c0 else none := by
  unfold getRefRow
  rw [hlast]
  show scanBack rows.reverse (latest.ts - lb) tol = _
  rw [scanBack_eq_find, hfind]

/-- On a list sorted by descending timestamp, a successful `find?` for
"timestamp at or before `target`" yields a member at or before `target`
that is at least as recent as every other such member. -/
lemma find?_desc_max {l : List Row}
    (hp : List.Pairwise (fun a b => b.ts ≤ a.ts) l) {c : Row} {target : ℤ}
    (hc : l.find? (fun r => decide (r.ts ≤ target)) = some c) :
    c ∈ l ∧ c.ts ≤ target ∧ ∀ r ∈ l, r.ts ≤ target → r.ts ≤ c.ts := by
  induction l with
  | nil => simp at hc
  | cons x xs ih =>
    rcases List.pairwise_cons.mp hp with ⟨hx, hxs⟩
    by_cases h : x.ts ≤ target
    · rw [List.find?_cons_of_pos _ (by simpa using h)] at hc
      obtain rfl : x = c := by simpa using hc
      refine ⟨List.mem_cons_self _ _, h, ?_⟩
      intro r hr _
      rcases List.mem_cons.mp hr with rfl | hr'
      · exact le_refl _
      · exact hx r hr'
    · rw [List.find?_cons_of_neg _ (by simpa using h)] at hc
      obtain ⟨hmem, hle, hmax⟩ := ih hxs hc
      refine ⟨List.mem_cons_of_mem _ hmem, hle, ?_⟩
      intro r hr hrt
      rcases List.mem_cons.mp hr with rfl | hr'
      · exact absurd hrt h
      · exact hmax r hr' hrt

/-- On any list, `find?` for "timestamp at or before `target`" succeeds as
soon as some member is at or before `target`. -/
lemma find?_le_exists {l : List Row} {r0 : Row} {target : ℤ}
    (hr0 : r0 ∈ l) (h : r0.ts ≤ target) :
    ∃ c, l.find? (fun r => decide (r.ts ≤ target)) = some c := by
  induction l with
  | nil => simp at hr0
  | cons x xs ih =>
    by_cases hx : x.ts ≤ target
    · exact ⟨x, List.find?_cons_of_pos _ (by simpa using hx)⟩
    · rcases List.mem_cons.mp hr0 with rfl | hr'
      · exact absurd h hx
      · obtain ⟨c, hc⟩ := ih hr'
        exact ⟨c, by rw [List.find?_cons_of_neg _ (by simpa using hx)]; exact hc⟩

/-- Descending pairwise order on the reversed series, from ascending order
on the series. -/
lemma pairwise_reverse_of_sorted {rows : List Row}
    (hs : List.Sorted (fun a b => a.ts ≤ b.ts) rows) :
    List.Pairwise (fun a b => b.ts ≤ a.ts) rows.reverse := by
  rw [List.pairwise_reverse]
  exact hs

lemma buildFxIndex_lastDateMs (fxRows : List FxRow) (fb : ℚ) :
    (buildFxIndex fxRows fb).lastDateMs = (buildFxIndex fxRows fb).datesMs.getLast? := by
  rw [buildFxIndex_eq]

lemma buildFxIndex_lastRate_of_ne (fxRows : List FxRow) (fb : ℚ)
    (h : (buildFxIndex fxRows fb).datesMs ≠ []) :
    (buildFxIndex fxRows fb).lastRate = (buildFxIndex fxRows fb).rates.getLast? := by
  rw [buildFxIndex_eq] at h ⊢
  simp only at h ⊢
  rw [if_neg (by intro hc; exact h (by rw [hc]; rfl))]

lemma computeChange_latest_none (rows : List Row) (w tol : ℤ) (cur : Currency)
    (idx : FxIndex) (fb : ℚ) :
    computeChangeCurrency rows none w tol cur idx fb = none := rfl

lemma computeChange_short (rows : List Row) (latest : Option Row) (w tol : ℤ)
    (cur : Currency) (idx : FxIndex) (fb : ℚ) (h2 : rows.length < 2) :
    computeChangeCurrency rows latest w tol cur idx fb = none := by
  cases latest with
  | none => rfl
  | some l =>
    simp only [computeChangeCurrency]
    rw [if_pos h2]

lemma computeChange_ref_none (rows : List Row) (latest : Option Row) (w tol : ℤ)
    (cur : Currency) (idx : FxIndex) (fb : ℚ)
    (href : getRefRow rows w tol = none) :
    computeChangeCurrency rows latest w tol cur idx fb = none := by
  cases latest with
  | none => rfl
  | some l =>
    simp only [computeChangeCurrency]
    by_cases h2 : rows.length < 2
    · rw [if_pos h2]
    · rw [if_neg h2, href]

lemma computeChange_some_eq (rows : List Row) (l : Row) (w tol : ℤ) (cur : Currency)
    (idx : FxIndex) (fb : ℚ) (h2 : ¬ rows.length < 2) {ref : Row}
    (href : getRefRow rows w tol = some ref) :
    computeChangeCurrency rows (some l) w tol cur idx fb =
      some { dNok := toCurrencyAt l.per_capita_nok cur l.ts idx fb
                   - toCurrencyAt ref.per_capita_nok cur ref.ts idx fb,
             dPct := (toCurrencyAt l.per_capita_nok cur l.ts idx fb
                     - toCurrencyAt ref.per_capita_nok cur ref.ts idx fb)
                   / toCurrencyAt ref.per_capita_nok cur ref.ts idx fb * 100,
             since := ref.ts } := by
  simp only [computeChangeCurrency]
  rw [if_neg h2, href]

lemma sorted_getD_mono {l : List ℤ} (hs : List.Sorted (· ≤ ·) l) {i j : ℕ}
    (hij : i ≤ j) (hj : j < l.length) : l.getD i 0 ≤ l.getD j 0 := by
  rcases Nat.lt_or_ge i j with hlt | hge
  · rw [List.getD_eq_getElem l 0 (lt_of_le_of_lt hij hj), List.getD_eq_getElem l 0 hj]
    exact List.pairwise_iff_get.mp hs ⟨i, lt_of_le_of_lt hij hj⟩ ⟨j, hj⟩ hlt
  · have : i = j := le_antisymm hij hge
    rw [this]

/-
Claim theorems.
-/

/-- C3: for every (sorted, well-formed) FX index and every instant,
`getUsdNokAt` returns the rate of the index entry with the greatest date
at or before the instant when such an entry exists, and the fallback rate
when no date qualifies; for an index built from an empty record
collection it returns the fallback for every instant. -/
theorem claim_C3_rate_at_or_before (idx : FxIndex)
    (hs : List.Sorted (· ≤ ·) idx.datesMs)
    (hlen : idx.rates.length = idx.datesMs.length) (t : ℤ) (fb : ℚ) :
    ((∃ j : ℕ, j < idx.datesMs.length ∧ idx.datesMs.getD j 0 ≤ t ∧
        (∀ k : ℕ, k < idx.datesMs.length → idx.datesMs.getD k 0 ≤ t → k ≤ j) ∧
        getUsdNokAt t idx fb = idx.rates.getD j 0)
      ∨ ((∀ k : ℕ, k < idx.datesMs.length → ¬ idx.datesMs.getD k 0 ≤ t) ∧
        getUsdNokAt t idx fb = fb))
    ∧ (∀ (fb2 : ℚ) (t2 : ℤ), getUsdNokAt t2 (buildFxIndex [] fb2) fb2 = fb2) := by
  constructor
  · have hcle := leCount_le_length idx.datesMs t
    by_cases h : 0 < leCount idx.datesMs t
    · left
      refine ⟨leCount idx.datesMs t - 1, by omega, ?_, ?_, ?_⟩
      · exact (sorted_getD_le_iff hs t _ (by omega)).mpr (by omega)
      · intro k hk hkle
        have := (sorted_getD_le_iff hs t k hk).mp hkle
        omega
      · rw [getUsdNokAt_eq hs, if_pos h]
    · right
      refine ⟨?_, ?_⟩
      · intro k hk hkle
        have := (sorted_getD_le_iff hs t k hk).mp hkle
        omega
      · rw [getUsdNokAt_eq hs, if_neg h]
  · intro fb2 t2
    rfl

/-- Witness for C3: the index built from a single record dated at instant 0
with rate 10, queried at instant 5 with fallback 99, satisfies the
characterization. -/
theorem claim_C3_rate_at_or_before_witness :
    ((∃ j : ℕ, j < (buildFxIndex [⟨some 0, 10⟩] 7).datesMs.length ∧
        (buildFxIndex [⟨some 0, 10⟩] 7).datesMs.getD j 0 ≤ 5 ∧
        (∀ k : ℕ, k < (buildFxIndex [⟨some 0, 10⟩] 7).datesMs.length →
          (buildFxIndex [⟨some 0, 10⟩] 7).datesMs.getD k 0 ≤ 5 → k ≤ j) ∧
        getUsdNokAt 5 (buildFxIndex [⟨some 0, 10⟩] 7) 99
          = (buildFxIndex [⟨some 0, 10⟩] 7).rates.getD j 0)
      ∨ ((∀ k : ℕ, k < (buildFxIndex [⟨some 0, 10⟩] 7).datesMs.length →
          ¬ (buildFxIndex [⟨some 0, 10⟩] 7).datesMs.getD k 0 ≤ 5) ∧
        getUsdNokAt 5 (buildFxIndex [⟨some 0, 10⟩] 7) 99 = 99))
    ∧ (∀ (fb2 : ℚ) (t2 : ℤ), getUsdNokAt t2 (buildFxIndex [] fb2) fb2 = fb2) :=
  claim_C3_rate_at_or_before (buildFxIndex [⟨some 0, 10⟩] 7) (by decide) (by decide) 5 99

/-- C7: for every (sorted) non-empty FX index and instants `t1 < t2`, the
entry chosen by the lookup for `t1` (when one is chosen) has a date at or
before the date of the entry chosen for `t2` (which then also exists),
and a chosen entry's date is never after the queried instant. -/
theorem claim_C7_no_lookahead (idx : FxIndex)
    (hs : List.Sorted (· ≤ ·) idx.datesMs) (hne : idx.datesMs ≠ [])
    {t1 t2 : ℤ} (h12 : t1 < t2) :
    (0 ≤ findFxIdxAtOrBefore t1 idx →
      0 ≤ findFxIdxAtOrBefore t2 idx ∧
      idx.datesMs.getD (findFxIdxAtOrBefore t1 idx).toNat 0
        ≤ idx.datesMs.getD (findFxIdxAtOrBefore t2 idx).toNat 0 ∧
      idx.datesMs.getD (findFxIdxAtOrBefore t1 idx).toNat 0 ≤ t1)
    ∧ (0 ≤ findFxIdxAtOrBefore t2 idx →
      idx.datesMs.getD (findFxIdxAtOrBefore t2 idx).toNat 0 ≤ t2) := by
  have h1 := findFxIdxAtOrBefore_eq hs t1
  have h2 := findFxIdxAtOrBefore_eq hs t2
  have hmono := leCount_mono idx.datesMs (le_of_lt h12)
  have hle1 := leCount_le_length idx.datesMs t1
  have hle2 := leCount_le_length idx.datesMs t2
  constructor
  · intro hpos
    rw [h1] at hpos ⊢
    rw [h2]
    have hc1 : 0 < leCount idx.datesMs t1 := by omega
    have hc2 : 0 < leCount idx.datesMs t2 := by omega
    refine ⟨by omega, ?_, ?_⟩
    · have heq1 : ((leCount idx.datesMs t1 : ℤ) - 1).toNat = leCount idx.datesMs t1 - 1 := by
        omega
      have heq2 : ((leCount idx.datesMs t2 : ℤ) - 1).toNat = leCount idx.datesMs t2 - 1 := by
        omega
      rw [heq1, heq2]
      exact sorted_getD_mono hs (by omega) (by omega)
    · have heq1 : ((leCount idx.datesMs t1 : ℤ) - 1).toNat = leCount idx.datesMs t1 - 1 := by
        omega
      rw [heq1]
      exact (sorted_getD_le_iff hs t1 _ (by omega)).mpr (by omega)
  · intro hpos
    rw [h2] at hpos ⊢
    have hc2 : 0 < leCount idx.datesMs t2 := by omega
    have heq2 : ((leCount idx.datesMs t2 : ℤ) - 1).toNat = leCount idx.datesMs t2 - 1 := by
      omega
    rw [heq2]
    exact (sorted_getD_le_iff hs t2 _ (by omega)).mpr (by omega)

/-- Witness for C7: the two-entry index with dates 10 and 20, queried at
instants 15 and 25. -/
theorem claim_C7_no_lookahead_witness :
    (0 ≤ findFxIdxAtOrBefore 15 (buildFxIndex [⟨some 10, 1⟩, ⟨some 20, 2⟩] 9) →
      0 ≤ findFxIdxAtOrBefore 25 (buildFxIndex [⟨some 10, 1⟩, ⟨some 20, 2⟩] 9) ∧
      (buildFxIndex [⟨some 10, 1⟩, ⟨some 20, 2⟩] 9).datesMs.getD
          (findFxIdxAtOrBefore 15 (buildFxIndex [⟨some 10, 1⟩, ⟨some 20, 2⟩] 9)).toNat 0
        ≤ (buildFxIndex [⟨some 10, 1⟩, ⟨some 20, 2⟩] 9).datesMs.getD
          (findFxIdxAtOrBefore 25 (buildFxIndex [⟨some 10, 1⟩, ⟨some 20, 2⟩] 9)).toNat 0 ∧
      (buildFxIndex [⟨some 10, 1⟩, ⟨some 20, 2⟩] 9).datesMs.getD
          (findFxIdxAtOrBefore 15 (buildFxIndex [⟨some 10, 1⟩, ⟨some 20, 2⟩] 9)).toNat 0 ≤ 15)
    ∧ (0 ≤ findFxIdxAtOrBefore 25 (buildFxIndex [⟨some 10, 1⟩, ⟨some 20, 2⟩] 9) →
      (buildFxIndex [⟨some 10, 1⟩, ⟨some 20, 2⟩] 9).datesMs.getD
          (findFxIdxAtOrBefore 25 (buildFxIndex [⟨some 10, 1⟩, ⟨some 20, 2⟩] 9)).toNat 0 ≤ 25) :=
  claim_C7_no_lookahead (buildFxIndex [⟨some 10, 1⟩, ⟨some 20, 2⟩] 9)
    (by decide) (by decide) (by decide)

/-- C8: under the precondition that the configured fallback rate is
positive, the rate lookup on an index built by `buildFxIndex` always
returns a positive value, so the USD conversion's division is by a
nonzero rate (expressed by the cancellation identity, which fails at a
zero divisor). -/
theorem claim_C8_rate_positive (fxRows : List FxRow) (fb : ℚ) (hfb : 0 < fb) (t : ℤ) :
    0 < getUsdNokAt t (buildFxIndex fxRows fb) fb
    ∧ ∀ nok : ℚ,
        toCurrencyAt nok .USD t (buildFxIndex fxRows fb) fb
          * getUsdNokAt t (buildFxIndex fxRows fb) fb = nok := by
  have hs := buildFxIndex_sorted fxRows fb
  have hlen := buildFxIndex_length fxRows fb
  have hcle := leCount_le_length (buildFxIndex fxRows fb).datesMs t
  have hpos : 0 < getUsdNokAt t (buildFxIndex fxRows fb) fb := by
    rw [getUsdNokAt_eq hs]
    by_cases h : 0 < leCount (buildFxIndex fxRows fb).datesMs t
    · rw [if_pos h]
      apply buildFxIndex_rates_pos fxRows fb
      rw [List.getD_eq_getElem _ 0 (by omega)]
      exact List.getElem_mem _
    · rw [if_neg h]
      exact hfb
  refine ⟨hpos, fun nok => ?_⟩
  show nok / getUsdNokAt t (buildFxIndex fxRows fb) fb
      * getUsdNokAt t (buildFxIndex fxRows fb) fb = nok
  exact div_mul_cancel₀ nok (ne_of_gt hpos)

/-- Witness for C8: an index with one valid record and one filtered-out
record, positive fallback 7, queried before the earliest date (so the
fallback path is exercised) and with `nok = 42`. -/
theorem claim_C8_rate_positive_witness :
    0 < getUsdNokAt (-5) (buildFxIndex [⟨some 0, 10⟩, ⟨none, 3⟩] 7) 7
    ∧ ∀ nok : ℚ,
        toCurrencyAt nok .USD (-5) (buildFxIndex [⟨some 0, 10⟩, ⟨none, 3⟩] 7) 7
          * getUsdNokAt (-5) (buildFxIndex [⟨some 0, 10⟩, ⟨none, 3⟩] 7) 7 = nok :=
  claim_C8_rate_positive [⟨some 0, 10⟩, ⟨none, 3⟩] 7 (by norm_num) (-5)

/-- C9: `computeChangeCurrency` returns `none` ("unavailable") whenever the
latest record is absent, or the series has fewer than 2 records, or no
qualifying reference point exists; being a total function of its inputs,
it raises nothing for these data-sparsity conditions. -/
theorem claim_C9_unavailable_on_sparsity (rows : List Row) (latest : Option Row)
    (w tol : ℤ) (cur : Currency) (idx : FxIndex) (fb : ℚ) :
    (latest = none → computeChangeCurrency rows latest w tol cur idx fb = none)
    ∧ (rows.length < 2 → computeChangeCurrency rows latest w tol cur idx fb = none)
    ∧ (getRefRow rows w tol = none →
        computeChangeCurrency rows latest w tol cur idx fb = none) := by
  refine ⟨?_, ?_, ?_⟩
  · intro h
    rw [h]
    exact computeChange_latest_none rows w tol cur idx fb
  · intro h2
    exact computeChange_short rows latest w tol cur idx fb h2
  · intro href
    exact computeChange_ref_none rows latest w tol cur idx fb href

/-- Witness for C9: a one-record series (fewer than 2 records), whose
reference lookup also fails for a 1-hour window. -/
theorem claim_C9_unavailable_on_sparsity_witness :
    (some (⟨0, 100, 1, 100⟩ : Row) = none →
      computeChangeCurrency [⟨0, 100, 1, 100⟩] (some ⟨0, 100, 1, 100⟩) 3600000 5400000
        .NOK (buildFxIndex [] 10) 10 = none)
    ∧ ([(⟨0, 100, 1, 100⟩ : Row)].length < 2 →
      computeChangeCurrency [⟨0, 100, 1, 100⟩] (some ⟨0, 100, 1, 100⟩) 3600000 5400000
        .NOK (buildFxIndex [] 10) 10 = none)
    ∧ (getRefRow [⟨0, 100, 1, 100⟩] 3600000 5400000 = none →
      computeChangeCurrency [⟨0, 100, 1, 100⟩] (some ⟨0, 100, 1, 100⟩) 3600000 5400000
        .NOK (buildFxIndex [] 10) 10 = none) :=
  claim_C9_unavailable_on_sparsity [⟨0, 100, 1, 100⟩] (some ⟨0, 100, 1, 100⟩)
    3600000 5400000 .NOK (buildFxIndex [] 10) 10

/-- C10: every index produced by `buildFxIndex` is well-formed: parallel
arrays of equal length, dates sorted non-decreasing (date strings are
modelled as the instants they denote, which encodes the ISO 8601
precondition under which lexicographic order is chronological order),
every stored rate positive, and on a non-empty index the `last` fields
equal the final elements of the arrays. The lookups (`findFxIdxAtOrBefore`,
`getUsdNokAt`) are pure functions of the index value, so they cannot
mutate it. -/
theorem claim_C10_index_well_formed (fxRows : List FxRow) (fb : ℚ) :
    (buildFxIndex fxRows fb).rates.length = (buildFxIndex fxRows fb).datesMs.length
    ∧ List.Sorted (· ≤ ·) (buildFxIndex fxRows fb).datesMs
    ∧ (∀ x ∈ (buildFxIndex fxRows fb).rates, 0 < x)
    ∧ ((buildFxIndex fxRows fb).datesMs ≠ [] →
        (buildFxIndex fxRows fb).lastDateMs = (buildFxIndex fxRows fb).datesMs.getLast?
        ∧ (buildFxIndex fxRows fb).lastRate = (buildFxIndex fxRows fb).rates.getLast?) :=
  ⟨buildFxIndex_length fxRows fb, buildFxIndex_sorted fxRows fb,
    buildFxIndex_rates_pos fxRows fb,
    fun hne => ⟨buildFxIndex_lastDateMs fxRows fb,
      buildFxIndex_lastRate_of_ne fxRows fb hne⟩⟩

/-- Witness for C10: the index built from two out-of-order records and one
invalid record (non-positive rate). -/
theorem claim_C10_index_well_formed_witness :
    (buildFxIndex [⟨some 20, 2⟩, ⟨some 10, 1⟩, ⟨some 30, 0⟩] 9).rates.length
        = (buildFxIndex [⟨some 20, 2⟩, ⟨some 10, 1⟩, ⟨some 30, 0⟩] 9).datesMs.length
    ∧ List.Sorted (· ≤ ·) (buildFxIndex [⟨some 20, 2⟩, ⟨some 10, 1⟩, ⟨some 30, 0⟩] 9).datesMs
    ∧ (∀ x ∈ (buildFxIndex [⟨some 20, 2⟩, ⟨some 10, 1⟩, ⟨some 30, 0⟩] 9).rates, 0 < x)
    ∧ ((buildFxIndex [⟨some 20, 2⟩, ⟨some 10, 1⟩, ⟨some 30, 0⟩] 9).datesMs ≠ [] →
        (buildFxIndex [⟨some 20, 2⟩, ⟨some 10, 1⟩, ⟨some 30, 0⟩] 9).lastDateMs
          = (buildFxIndex [⟨some 20, 2⟩, ⟨some 10, 1⟩, ⟨some 30, 0⟩] 9).datesMs.getLast?
        ∧ (buildFxIndex [⟨some 20, 2⟩, ⟨some 10, 1⟩, ⟨some 30, 0⟩] 9).lastRate
          = (buildFxIndex [⟨some 20, 2⟩, ⟨some 10, 1⟩, ⟨some 30, 0⟩] 9).rates.getLast?) :=
  claim_C10_index_well_formed [⟨some 20, 2⟩, ⟨some 10, 1⟩, ⟨some 30, 0⟩] 9

/-- C2: whenever `computeChangeCurrency` produces a result, the latest and
the reference per-capita values are each converted at their own timestamp,
the absolute delta is their difference and the percent delta is the
difference divided by the converted reference times 100; and on the
series [{t=0, per_capita=500000}, {t=24h, per_capita=550000}] with one FX
record (rate 10 at t=0) and fallback 10, the 24h-window (tolerance 6h)
USD change is 5000 with percentage 10. -/
theorem claim_C2_per_timestamp_conversion :
    (∀ (rows : List Row) (l : Row) (w tol : ℤ) (cur : Currency) (idx : FxIndex)
        (fb : ℚ) (c : ChangeResult),
      computeChangeCurrency rows (some l) w tol cur idx fb = some c →
      ∃ ref, getRefRow rows w tol = some ref ∧
        c.dNok = toCurrencyAt l.per_capita_nok cur l.ts idx fb
               - toCurrencyAt ref.per_capita_nok cur ref.ts idx fb ∧
        c.dPct = c.dNok / toCurrencyAt ref.per_capita_nok cur ref.ts idx fb * 100 ∧
        c.since = ref.ts)
    ∧ computeChangeCurrency
        [⟨0, 500000, 1, 500000⟩, ⟨86400000, 550000, 1, 550000⟩]
        (some ⟨86400000, 550000, 1, 550000⟩) 86400000 21600000 .USD
        (buildFxIndex [⟨some 0, 10⟩] 10) 10
      = some ⟨5000, 10, 0⟩ := by
  constructor
  · intro rows l w tol cur idx fb c h
    by_cases h2 : rows.length < 2
    · rw [computeChange_short rows (some l) w tol cur idx fb h2] at h
      exact absurd h (by simp)
    · cases href : getRefRow rows w tol with
      | none =>
        rw [computeChange_ref_none rows (some l) w tol cur idx fb href] at h
        exact absurd h (by simp)
      | some ref =>
        rw [computeChange_some_eq rows l w tol cur idx fb h2 href] at h
        obtain rfl : _ = c := Option.some_injective _ h
        exact ⟨ref, rfl, rfl, rfl, rfl⟩
  · norm_num [computeChangeCurrency, getRefRow, scanBack, toCurrencyAt, getUsdNokAt,
      findFxIdxAtOrBefore, fxSearchAux, buildFxIndex, fxClean, fxKeep,
      List.insertionSort]

/-- Witness for C2: instantiating the general conjunct at the end-to-end
scenario of the second conjunct yields its reference record and formulas. -/
theorem claim_C2_per_timestamp_conversion_witness :
    ∃ ref, getRefRow [⟨0, 500000, 1, 500000⟩, ⟨86400000, 550000, 1, 550000⟩]
        86400000 21600000 = some ref ∧
      (5000 : ℚ) = toCurrencyAt (550000 : ℚ) .USD 86400000 (buildFxIndex [⟨some 0, 10⟩] 10) 10
                 - toCurrencyAt ref.per_capita_nok .USD ref.ts (buildFxIndex [⟨some 0, 10⟩] 10) 10 ∧
      (10 : ℚ) = (5000 : ℚ)
          / toCurrencyAt ref.per_capita_nok .USD ref.ts (buildFxIndex [⟨some 0, 10⟩] 10) 10 * 100 ∧
      (0 : ℤ) = ref.ts :=
  claim_C2_per_timestamp_conversion.1
    [⟨0, 500000, 1, 500000⟩, ⟨86400000, 550000, 1, 550000⟩]
    ⟨86400000, 550000, 1, 550000⟩ 86400000 21600000 .USD
    (buildFxIndex [⟨some 0, 10⟩] 10) 10 ⟨5000, 10, 0⟩
    claim_C2_per_timestamp_conversion.2

/-- C1 counterexample: on the series [{t=0, per_capita=0}, {t=24h,
per_capita=100}] with a 24h window and zero tolerance, the reference
resolves to the t=0 record, its converted (NOK) value is 0, and yet
`computeChangeCurrency` returns a result rather than `none`
("unavailable"): there is no zero-reference guard in the code. In the
rational model the division by zero yields the junk value 0 for `dPct`;
in the JS implementation the same expression yields `Infinity`. -/
theorem claim_C1_counterexample :
    getRefRow [⟨0, 0, 1, 0⟩, ⟨86400000, 100, 1, 100⟩] 86400000 0 = some ⟨0, 0, 1, 0⟩
    ∧ toCurrencyAt (⟨0, 0, 1, 0⟩ : Row).per_capita_nok .NOK (⟨0, 0, 1, 0⟩ : Row).ts
        (buildFxIndex [] 10) 10 = 0
    ∧ computeChangeCurrency [⟨0, 0, 1, 0⟩, ⟨86400000, 100, 1, 100⟩]
        (some ⟨86400000, 100, 1, 100⟩) 86400000 0 .NOK (buildFxIndex [] 10) 10
      = some ⟨100, 0, 0⟩ := by
  refine ⟨by decide, by decide, ?_⟩
  norm_num [computeChangeCurrency, getRefRow, scanBack, toCurrencyAt, getUsdNokAt,
    findFxIdxAtOrBefore, fxSearchAux, buildFxIndex, fxClean, fxKeep,
    List.insertionSort]

/-- C1 amended: if a reference record resolves (with at least 2 rows) and
its converted per-capita value is zero, `computeChangeCurrency` does NOT
return "unavailable": it returns a result whose timestamp is the
reference's and whose absolute delta is the converted latest value, the
percentage being the result of a division by zero (`Infinity`/`NaN` in
the implementation, the junk value 0 of rational division here). -/
theorem claim_C1_amended (rows : List Row) (l : Row) (w tol : ℤ) (cur : Currency)
    (idx : FxIndex) (fb : ℚ) (ref : Row)
    (h2 : ¬ rows.length < 2) (href : getRefRow rows w tol = some ref)
    (hzero : toCurrencyAt ref.per_capita_nok cur ref.ts idx fb = 0) :
    ∃ c, computeChangeCurrency rows (some l) w tol cur idx fb = some c
      ∧ c.since = ref.ts
      ∧ c.dNok = toCurrencyAt l.per_capita_nok cur l.ts idx fb := by
  refine ⟨_, computeChange_some_eq rows l w tol cur idx fb h2 href, rfl, ?_⟩
  simp [hzero]

/-- Witness for the amended C1, at the counterexample input. -/
theorem claim_C1_amended_witness :
    ∃ c, computeChangeCurrency [⟨0, 0, 1, 0⟩, ⟨86400000, 100, 1, 100⟩]
        (some ⟨86400000, 100, 1, 100⟩) 86400000 0 .NOK (buildFxIndex [] 10) 10 = some c
      ∧ c.since = (⟨0, 0, 1, 0⟩ : Row).ts
      ∧ c.dNok = toCurrencyAt (⟨86400000, 100, 1, 100⟩ : Row).per_capita_nok .NOK
          (⟨86400000, 100, 1, 100⟩ : Row).ts (buildFxIndex [] 10) 10 :=
  claim_C1_amended [⟨0, 0, 1, 0⟩, ⟨86400000, 100, 1, 100⟩] ⟨86400000, 100, 1, 100⟩
    86400000 0 .NOK (buildFxIndex [] 10) 10 ⟨0, 0, 1, 0⟩
    (by decide) (by decide) (by decide)

/-- C5 counterexample: for the empty input collection, the produced index
has empty arrays and an absent `lastDateMs`, but `lastRate` is NOT
absent: the code sets it to the fallback rate (`lastRate: envFallback`). -/
theorem claim_C5_counterexample :
    (buildFxIndex [] 10).datesMs = [] ∧ (buildFxIndex [] 10).rates = []
    ∧ (buildFxIndex [] 10).lastDateMs = none
    ∧ (buildFxIndex [] 10).lastRate = some 10 := by
  decide

/-- C5 amended: for every input collection whose filtered result is empty
(including the empty collection), `buildFxIndex` produces an index with
empty date and rate arrays, absent `lastDateMs`, and `lastRate` equal to
the fallback rate (present, not absent). -/
theorem claim_C5_amended (fxRows : List FxRow) (fb : ℚ)
    (h : fxRows.filter fxKeep = []) :
    buildFxIndex fxRows fb
      = { datesMs := [], rates := [], lastDateMs := none, lastRate := some fb } := by
  have hclean : fxClean fxRows = [] := by
    unfold fxClean
    rw [h]
    rfl
  rw [buildFxIndex_eq, hclean]
  simp

/-- Witness for the amended C5: a one-record collection whose record is
dropped by the filter (missing date). -/
theorem claim_C5_amended_witness :
    buildFxIndex [⟨none, 5⟩] 10
      = { datesMs := [], rates := [], lastDateMs := none, lastRate := some 10 } :=
  claim_C5_amended [⟨none, 5⟩] 10 (by decide)

/-- C4 counterexample: `getRefRow` does not itself guard against series
with fewer than 2 records — with lookback 0 and tolerance 0, a
single-record series returns its sole record instead of `none` (the
fewer-than-2 guard lives in `computeChangeCurrency`). -/
theorem claim_C4_counterexample :
    getRefRow [⟨0, 7, 1, 7⟩] 0 0 = some ⟨0, 7, 1, 7⟩ := by
  decide

/-- C4 amended: for a time-ascending series and a POSITIVE lookback,
`getRefRow` scanned from the end takes as candidate the most recent
record at or before `target = latest.ts − lookback` and returns it
exactly when `target − candidate.ts ≤ tolerance`; it returns `none` for
every series with fewer than 2 records, and whenever every record is
newer than the target. (With a non-positive lookback the
fewer-than-2-records clause fails, as the counterexample shows.) -/
theorem claim_C4_amended (rows : List Row) (lb tol : ℤ)
    (hs : List.Sorted (fun a b => a.ts ≤ b.ts) rows) (hlb : 0 < lb) :
    (rows.length < 2 → getRefRow rows lb tol = none)
    ∧ ∀ latest, rows.getLast? = some latest →
        ((∀ c, getRefRow rows lb tol = some c →
            c ∈ rows ∧ c.ts ≤ latest.ts - lb ∧ (latest.ts - lb) - c.ts ≤ tol ∧
            ∀ r ∈ rows, r.ts ≤ latest.ts - lb → r.ts ≤ c.ts)
         ∧ ((∃ r ∈ rows, r.ts ≤ latest.ts - lb ∧ (latest.ts - lb) - r.ts ≤ tol) →
            ∃ c, getRefRow rows lb tol = some c)
         ∧ ((∀ r ∈ rows, ¬ r.ts ≤ latest.ts - lb) → getRefRow rows lb tol = none)) := by
  have hp := pairwise_reverse_of_sorted hs
  constructor
  · intro h2
    match rows, h2 with
    | [], _ => rfl
    | [r], _ =>
      have hlast : ([r] : List Row).getLast? = some r := rfl
      have hfind : ([r] : List Row).reverse.find?
          (fun x => decide (x.ts ≤ r.ts - lb)) = none := by
        rw [List.reverse_singleton, List.find?_cons_of_neg]
        · rfl
        · simp only [decide_eq_true_eq]
          omega
      exact getRefRow_of_find_none hlast hfind tol
  · intro latest hlast
    refine ⟨?_, ?_, ?_⟩
    · intro c hc
      cases hfind : rows.reverse.find? (fun r => decide (r.ts ≤ latest.ts - lb)) with
      | none =>
        rw [getRefRow_of_find_none hlast hfind tol] at hc
        exact absurd hc (by simp)
      | some c0 =>
        rw [getRefRow_of_find_some hlast hfind tol] at hc
        by_cases htol : (latest.ts - lb) - c0.ts ≤ tol
        · rw [if_pos htol] at hc
          obtain rfl : c0 = c := by simpa using hc
          obtain ⟨hmem, hle, hmax⟩ := find?_desc_max hp hfind
          exact ⟨List.mem_reverse.mp hmem, hle, htol,
            fun r hr hrle => hmax r (List.mem_reverse.mpr hr) hrle⟩
        · rw [if_neg htol] at hc
          exact absurd hc (by simp)
    · rintro ⟨r, hr, hrle, hrtol⟩
      obtain ⟨c0, hfind⟩ := find?_le_exists (List.mem_reverse.mpr hr) hrle
      obtain ⟨_, hle, hmax⟩ := find?_desc_max hp hfind
      have hc0r : r.ts ≤ c0.ts := hmax r (List.mem_reverse.mpr hr) hrle
      refine ⟨c0, ?_⟩
      rw [getRefRow_of_find_some hlast hfind tol, if_pos (by omega)]
    · intro hall
      cases hfind : rows.reverse.find? (fun r => decide (r.ts ≤ latest.ts - lb)) with
      | none => exact getRefRow_of_find_none hlast hfind tol
      | some c0 =>
        have h1 : c0.ts ≤ latest.ts - lb := by
          simpa using List.find?_some hfind
        have h2 : c0 ∈ rows := List.mem_reverse.mp (List.mem_of_find?_eq_some hfind)
        exact absurd h1 (hall c0 h2)

/-- Witness for the amended C4: the series [{t=0}, {t=100}] with lookback
40 and tolerance 70 (target 60, candidate at t=0, gap 60 within
tolerance). -/
theorem claim_C4_amended_witness :
    (([⟨0, 5, 1, 5⟩, ⟨100, 6, 1, 6⟩] : List Row).length < 2 →
      getRefRow [⟨0, 5, 1, 5⟩, ⟨100, 6, 1, 6⟩] 40 70 = none)
    ∧ ∀ latest, ([⟨0, 5, 1, 5⟩, ⟨100, 6, 1, 6⟩] : List Row).getLast? = some latest →
        ((∀ c, getRefRow [⟨0, 5, 1, 5⟩, ⟨100, 6, 1, 6⟩] 40 70 = some c →
            c ∈ ([⟨0, 5, 1, 5⟩, ⟨100, 6, 1, 6⟩] : List Row) ∧ c.ts ≤ latest.ts - 40 ∧
            (latest.ts - 40) - c.ts ≤ 70 ∧
            ∀ r ∈ ([⟨0, 5, 1, 5⟩, ⟨100, 6, 1, 6⟩] : List Row),
              r.ts ≤ latest.ts - 40 → r.ts ≤ c.ts)
         ∧ ((∃ r ∈ ([⟨0, 5, 1, 5⟩, ⟨100, 6, 1, 6⟩] : List Row), r.ts ≤ latest.ts - 40 ∧
              (latest.ts - 40) - r.ts ≤ 70) →
            ∃ c, getRefRow [⟨0, 5, 1, 5⟩, ⟨100, 6, 1, 6⟩] 40 70 = some c)
         ∧ ((∀ r ∈ ([⟨0, 5, 1, 5⟩, ⟨100, 6, 1, 6⟩] : List Row),
              ¬ r.ts ≤ latest.ts - 40) →
            getRefRow [⟨0, 5, 1, 5⟩, ⟨100, 6, 1, 6⟩] 40 70 = none)) :=
  claim_C4_amended [⟨0, 5, 1, 5⟩, ⟨100, 6, 1, 6⟩] 40 70 (by decide) (by decide)

lemma buildFxIndexRaw_zip (rows : List RawFxRow) (fb : JsNum) :
    (buildFxIndexRaw rows fb).datesMs.zip (buildFxIndexRaw rows fb).rates
      = (List.insertionSort rawFxLe (rows.filter rawFxKeep)).map
          (fun r => (r.date.getD 0, r.usdnok.getD .nan)) := by
  unfold buildFxIndexRaw
  by_cases h : (List.insertionSort rawFxLe (rows.filter rawFxKeep)).length = 0
  · have hnil : List.insertionSort rawFxLe (rows.filter rawFxKeep) = [] :=
      List.length_eq_zero.mp h
    rw [if_pos h, hnil]
    rfl
  · rw [if_neg h]
    exact List.zip_map' _ _ _

/-- C6 counterexample: the record with a valid date and rate `+Infinity`
passes the filter of `buildFxIndex` (in JS, `Infinity > 0` is true and
`typeof Infinity === "number"`), and its non-finite rate lands in the
produced index — the filter does NOT drop every non-finite rate. -/
theorem claim_C6_counterexample :
    rawFxKeep ⟨some 0, some .posInf⟩ = true
    ∧ jsNumFinite JsNum.posInf = false
    ∧ (buildFxIndexRaw [⟨some 0, some .posInf⟩] (.fin 10)).rates = [JsNum.posInf] := by
  decide

/-- C6 amended: the filter of `buildFxIndex` keeps exactly the records
whose rate is a number that is either positive-finite or `+Infinity`
(dropping non-numbers, `NaN`, non-positive rates and `-Infinity` — but
NOT `+Infinity`) and whose date is present; every (date, rate) entry of
the resulting index comes from an input record that passed this filter. -/
theorem claim_C6_amended (rows : List RawFxRow) (fb : JsNum) :
    (∀ r : RawFxRow, rawFxKeep r = true ↔
        ((∃ q : ℚ, r.usdnok = some (.fin q) ∧ 0 < q) ∨ r.usdnok = some .posInf)
        ∧ r.date.isSome = true)
    ∧ ∀ d v, (d, v) ∈ (buildFxIndexRaw rows fb).datesMs.zip (buildFxIndexRaw rows fb).rates →
        ∃ r ∈ rows, rawFxKeep r = true ∧ r.date = some d ∧ r.usdnok = some v := by
  constructor
  · intro r
    unfold rawFxKeep
    cases hu : r.usdnok with
    | none => simp
    | some v => cases v <;> simp [jsNumPos]
  · intro d v hmem
    rw [buildFxIndexRaw_zip] at hmem
    obtain ⟨r, hr, heq⟩ := List.mem_map.mp hmem
    have hr2 : r ∈ rows.filter rawFxKeep :=
      (List.perm_insertionSort rawFxLe _).mem_iff.mp hr
    have hrrows : r ∈ rows := (List.mem_filter.mp hr2).1
    have hkeep : rawFxKeep r = true := (List.mem_filter.mp hr2).2
    have hdate : r.date.isSome = true := by
      unfold rawFxKeep at hkeep
      exact (Bool.and_eq_true_iff.mp hkeep).2
    have husd : r.usdnok.isSome = true := by
      unfold rawFxKeep at hkeep
      have := (Bool.and_eq_true_iff.mp hkeep).1
      cases hu : r.usdnok with
      | none => rw [hu] at this; exact absurd this (by simp)
      | some v0 => rfl
    obtain ⟨d0, hd0⟩ := Option.isSome_iff_exists.mp hdate
    obtain ⟨v0, hv0⟩ := Option.isSome_iff_exists.mp husd
    refine ⟨r, hrrows, hkeep, ?_, ?_⟩
    · rw [hd0]
      rw [hd0] at heq
      have : d0 = d := by simpa using congrArg Prod.fst heq
      rw [this]
    · rw [hv0]
      rw [hv0] at heq
      have : v0 = v := by simpa using congrArg Prod.snd heq
      rw [this]

/-- Witness for the amended C6: a single valid record (date 3, finite rate
5) whose index entry is traced back to it. -/
theorem claim_C6_amended_witness :
    ∃ r ∈ ([⟨some 3, some (.fin 5)⟩] : List RawFxRow), rawFxKeep r = true
      ∧ r.date = some 3 ∧ r.usdnok = some (.fin 5) :=
  (claim_C6_amended [⟨some 3, some (.fin 5)⟩] (.fin 10)).2 3 (.fin 5) (by decide)

end Oljefond
